import Mathlib

/-!
Verification of `examples/tree.c`: a fixed seven-node binary tree is built
on the stack, linked by explicit pointer assignments, and traversed
depth-first in pre-order, printing one line per visited node.

Two embeddings are used and connected:

* `Tree`, an inductive binary tree with a name at each node.  A null
  pointer embeds as `Tree.nil`.  `dfs` is the traversal from the source,
  returning the sequence of visited node names.
* A pointer-level model: memory is an association list from addresses
  (the variable names of `main`) to `CNode` records whose `left`, `right`
  and `name` fields are optional (a C pointer that may be `NULL`).
  `dfsP` is the traversal over this memory with explicit fuel, returning
  `none` when a null pointer is dereferenced, a pointer dangles, or fuel
  runs out; `dfsS` additionally threads the memory state through, as the
  C functions could mutate it.
-/

namespace TreeC

/-- A binary tree node (`struct Node`): `name`, `left`, `right`.
`Tree.nil` stands for the null pointer. -/
inductive Tree where
  | nil : Tree
  | node (name : String) (left : Tree) (right : Tree) : Tree
deriving DecidableEq, Repr

/-- The line printed by `visit` for a node called `n`:
`printf("visiting node '%s'\n", node->name)`. -/
def visitLine (n : String) : String := "visiting node '" ++ n ++ "'"

/-- `dfs` from the source: return on null, otherwise visit the node, then
recurse into the left child, then into the right child.  The result is
the sequence of visited node names in visit order. -/
def dfs : Tree → List String
  | .nil => []
  | .node n l r => n :: (dfs l ++ dfs r)

/-- Number of nodes of a tree. -/
def size : Tree → Nat
  | .nil => 0
  | .node _ l r => 1 + size l + size r

/-- Number of null references encountered by `dfs`, i.e. the number of
calls `dfs(p)` whose argument `p` is null. -/
def nilCount : Tree → Nat
  | .nil => 1
  | .node _ l r => nilCount l + nilCount r

/-- Number of nodes of the tree carrying the name `n` (the multiplicity of
`n` among the reachable nodes). -/
def countName (n : String) : Tree → Nat
  | .nil => 0
  | .node m l r => (if m = n then 1 else 0) + countName n l + countName n r

/-- The tree wired up in `main`:
`root.left = &a; root.right = &b; a.left = &c; a.right = &d;
d.left = &e; b.right = &f;` and every other child pointer stays `NULL`. -/
def mainTree : Tree :=
  .node "root"
    (.node "a"
      (.node "c" .nil .nil)
      (.node "d" (.node "e" .nil .nil) .nil))
    (.node "b"
      .nil
      (.node "f" .nil .nil))

/-! ### Pointer-level model of `main`'s memory -/

/-- One `struct Node` as it sits in memory: `left` and `right` are child
pointers (`none` = `NULL`), `name` is a `char*` that may also be null. -/
structure CNode where
  left : Option String
  right : Option String
  name : Option String
deriving DecidableEq, Repr

/-- Memory: an association list from addresses (the seven variable names
of `main`) to node records. -/
abbrev Mem := List (String × CNode)

/-- The seven nodes right after their initialisers ran: each has its
`name` set and both child pointers null. -/
def initNodes : Mem :=
  [ ("root", ⟨none, none, some "root"⟩),
    ("a", ⟨none, none, some "a"⟩),
    ("b", ⟨none, none, some "b"⟩),
    ("c", ⟨none, none, some "c"⟩),
    ("d", ⟨none, none, some "d"⟩),
    ("e", ⟨none, none, some "e"⟩),
    ("f", ⟨none, none, some "f"⟩) ]

/-- The store `tgt.left = &child`. -/
def setLeft (st : Mem) (tgt child : String) : Mem :=
  st.map fun kv => if kv.1 = tgt then (kv.1, { kv.2 with left := some child }) else kv

/-- The store `tgt.right = &child`. -/
def setRight (st : Mem) (tgt child : String) : Mem :=
  st.map fun kv => if kv.1 = tgt then (kv.1, { kv.2 with right := some child }) else kv

/-- Memory after the six link statements of `main` ran in order. -/
def linkedNodes : Mem :=
  setRight (setLeft (setRight (setLeft (setRight (setLeft initNodes
    "root" "a") "root" "b") "a" "c") "a" "d") "d" "e") "b" "f"

/-- Read back the tree hanging off a pointer in memory: `none` when a
pointer dangles, a `name` is null, or the structure is deeper than the
fuel allows (a cycle would exhaust any fuel). -/
def toTree (st : Mem) : Nat → Option String → Option Tree
  | _, none => some .nil
  | 0, some _ => none
  | fuel + 1, some a => do
      let nd ← st.lookup a
      let n ← nd.name
      let l ← toTree st fuel nd.left
      let r ← toTree st fuel nd.right
      return .node n l r

/-- `visit` at the pointer level: dereference the node pointer, read its
`name` pointer, and produce the printed line.  There is no null check:
a null node pointer, a dangling pointer, or a null `name` is a failed
dereference, modelled as `none`. -/
def visitP (st : Mem) (p : Option String) : Option String :=
  match p with
  | none => none
  | some a =>
    match st.lookup a with
    | none => none
    | some nd =>
      match nd.name with
      | none => none
      | some n => some (visitLine n)

/-- `dfs` at the pointer level, with fuel bounding the recursion depth:
return the empty line list on a null pointer; otherwise visit the node
and recurse into its `left` and then its `right` pointer.  `none` marks a
failed dereference or fuel exhaustion. -/
def dfsP (st : Mem) : Nat → Option String → Option (List String)
  | _, none => some []
  | 0, some _ => none
  | fuel + 1, some a => do
      let nd ← st.lookup a
      let line ← visitP st (some a)
      let ls ← dfsP st fuel nd.left
      let rs ← dfsP st fuel nd.right
      return line :: (ls ++ rs)

/-- `visit` with the memory state threaded through, as a C function that
can reach the nodes could mutate them: the body of `visit` only reads, so
the state it returns is the state it was given. -/
def visitS (st : Mem) (p : Option String) : Option (Mem × String) :=
  match p with
  | none => none
  | some a =>
    match st.lookup a with
    | none => none
    | some nd =>
      match nd.name with
      | none => none
      | some n => some (st, visitLine n)

/-- `dfs` with the memory state threaded through every call, mirroring
that the C functions have the whole of `main`'s frame reachable: each
step receives the state left by the previous one. -/
def dfsS : Nat → Mem → Option String → Option (Mem × List String)
  | _, st, none => some (st, [])
  | 0, _, some _ => none
  | fuel + 1, st, some a =>
      (st.lookup a).bind fun nd =>
        (visitS st (some a)).bind fun q1 =>
          (dfsS fuel q1.1 nd.left).bind fun q2 =>
            (dfsS fuel q2.1 nd.right).bind fun q3 =>
              some (q3.1, q1.2 :: (q2.2 ++ q3.2))

/-- The whole of `main` after the linking phase: the "beginning" line,
the lines printed during `dfs(&root)`, the "finished" line, and the
return value `0`.  `none` would mark a failed dereference. -/
def mainRun : Option (List String × Nat) :=
  match dfsP linkedNodes 8 (some "root") with
  | none => none
  | some ls =>
    some ("beginning depth first search" ::
            (ls ++ ["finished depth first search"]), 0)

/-- The standard-output lines of the program. -/
def mainOutput : Option (List String) := mainRun.map Prod.fst

/-! ### Helper lemmas -/

/-- The visit sequence of `dfs` contains each name with the multiplicity
it has among the nodes of the tree. -/
theorem count_dfs (t : Tree) (n : String) : (dfs t).count n = countName n t := by
  induction t with
  | nil => simp [dfs, countName]
  | node m l r ihl ihr =>
    simp only [dfs, countName, List.count_cons, List.count_append, ihl, ihr, beq_iff_eq]
    by_cases h : m = n
    · simp [h]; omega
    · simp [h]

/-- `dfs` performs one visit action per node. -/
theorem length_dfs (t : Tree) : (dfs t).length = size t := by
  induction t with
  | nil => rfl
  | node m l r ihl ihr =>
    simp only [dfs, size, List.length_cons, List.length_append, ihl, ihr]
    omega

/-- `dfs` meets a null reference exactly `size t + 1` times. -/
theorem nilCount_size (t : Tree) : nilCount t = size t + 1 := by
  induction t with
  | nil => rfl
  | node m l r ihl ihr =>
    simp only [nilCount, size, ihl, ihr]
    omega

/-- `visit` returns the memory unchanged whenever it succeeds. -/
theorem visitS_frame (st : Mem) (p : Option String) (r : Mem × String)
    (h : visitS st p = some r) : r.1 = st := by
  cases p with
  | none => exact Option.noConfusion h
  | some a =>
    simp only [visitS] at h
    split at h
    · exact Option.noConfusion h
    · split at h
      · exact Option.noConfusion h
      · simp only [Option.some.injEq] at h
        rw [← h]

/-- `dfs` returns the memory unchanged whenever it succeeds. -/
theorem dfsS_frame : ∀ (fuel : Nat) (st : Mem) (p : Option String) (r : Mem × List String),
    dfsS fuel st p = some r → r.1 = st := by
  intro fuel
  induction fuel with
  | zero =>
    intro st p r h
    cases p with
    | none =>
      simp only [dfsS, Option.some.injEq] at h
      rw [← h]
    | some a => exact Option.noConfusion h
  | succ k ih =>
    intro st p r h
    cases p with
    | none =>
      simp only [dfsS, Option.some.injEq] at h
      rw [← h]
    | some a =>
      simp only [dfsS, Option.bind_eq_some, Option.some.injEq] at h
      obtain ⟨nd, hnd, q1, hv, q2, hl, q3, hr, hres⟩ := h
      have e1 : q1.1 = st := visitS_frame st (some a) q1 hv
      have e2 : q2.1 = q1.1 := ih q1.1 nd.left q2 hl
      have e3 : q3.1 = q2.1 := ih q2.1 nd.right q3 hr
      rw [← hres, e3, e2, e1]

/-! ### Claim theorems -/

/-- C1: running the program prints exactly the "beginning" line, then the
seven visit lines for root, a, c, d, e, b, f in this order, then the
"finished" line, and nothing else. -/
theorem main_output_exact :
    mainOutput = some
      ["beginning depth first search",
       "visiting node 'root'",
       "visiting node 'a'",
       "visiting node 'c'",
       "visiting node 'd'",
       "visiting node 'e'",
       "visiting node 'b'",
       "visiting node 'f'",
       "finished depth first search"] := by decide

/-- C2: on the fixed seven-node tree, `dfs` visits the nodes in exactly
the order root, a, c, d, e, b, f; in general each node is visited before
its left subtree and the whole left subtree before the right subtree. -/
theorem dfs_visit_order :
    dfs mainTree = ["root", "a", "c", "d", "e", "b", "f"] ∧
    (∀ (n : String) (l r : Tree), dfs (Tree.node n l r) = n :: (dfs l ++ dfs r)) :=
  ⟨by decide, fun _ _ _ => rfl⟩

/-- C3: in any finite tree the visit sequence of `dfs` contains each node
with exactly its multiplicity among the reachable nodes — no omissions,
no duplicates; in particular each of the seven constructed node names
appears exactly once in the visit sequence of the program's tree. -/
theorem dfs_visits_each_node_once :
    (∀ (t : Tree) (n : String), (dfs t).count n = countName n t) ∧
    ((dfs mainTree).count "root" = 1 ∧ (dfs mainTree).count "a" = 1 ∧
     (dfs mainTree).count "b" = 1 ∧ (dfs mainTree).count "c" = 1 ∧
     (dfs mainTree).count "d" = 1 ∧ (dfs mainTree).count "e" = 1 ∧
     (dfs mainTree).count "f" = 1) :=
  ⟨count_dfs, by decide⟩

/-- C4: `dfs` (a total function here, so terminating) performs exactly
`size t` visit actions on any finite tree and meets a null reference
exactly `size t + 1` times; on the fixed tree that is 7 visits and 8
null checks. -/
theorem dfs_terminates_with_counts :
    (∀ t : Tree, (dfs t).length = size t) ∧
    (∀ t : Tree, nilCount t = size t + 1) ∧
    size mainTree = 7 ∧ (dfs mainTree).length = 7 ∧ nilCount mainTree = 8 :=
  ⟨length_dfs, nilCount_size, by decide, by decide, by decide⟩

/-- C5: calling `dfs` on a null reference performs zero visit actions and
returns at once, in every model: the tree model, the pointer model, and
the state-threading model (where it also succeeds, as a normal case, with
the memory untouched). -/
theorem dfs_null_is_noop :
    dfs Tree.nil = [] ∧
    (∀ (st : Mem) (fuel : Nat), dfsP st fuel none = some []) ∧
    (∀ (fuel : Nat) (st : Mem), dfsS fuel st none = some (st, [])) :=
  ⟨rfl, fun st fuel => by cases fuel <;> rfl, fun fuel st => by cases fuel <;> rfl⟩

/-- C6: a node whose two child references are both absent is visited and
triggers no further visit, just the two null checks; in the program's
memory the nodes at c, e and f are exactly such leaves. -/
theorem dfs_leaf_behavior :
    (∀ n : String, dfs (Tree.node n Tree.nil Tree.nil) = [n]) ∧
    (∀ n : String, nilCount (Tree.node n Tree.nil Tree.nil) = 2) ∧
    toTree linkedNodes 8 (some "c") = some (Tree.node "c" Tree.nil Tree.nil) ∧
    toTree linkedNodes 8 (some "e") = some (Tree.node "e" Tree.nil Tree.nil) ∧
    toTree linkedNodes 8 (some "f") = some (Tree.node "f" Tree.nil Tree.nil) ∧
    dfsP linkedNodes 8 (some "c") = some [visitLine "c"] :=
  ⟨fun _ => rfl, fun _ => rfl, by decide, by decide, by decide, by decide⟩

/-- C7: `main` builds exactly seven nodes with distinct names root, a, b,
c, d, e, f; after linking, root points to a and b, a to c and d, d to e
on the left only, b to f on the right only, and every other child
reference is still null — so the memory reads back as `mainTree`. -/
theorem main_builds_exact_shape :
    linkedNodes.lookup "root" = some ⟨some "a", some "b", some "root"⟩ ∧
    linkedNodes.lookup "a" = some ⟨some "c", some "d", some "a"⟩ ∧
    linkedNodes.lookup "b" = some ⟨none, some "f", some "b"⟩ ∧
    linkedNodes.lookup "c" = some ⟨none, none, some "c"⟩ ∧
    linkedNodes.lookup "d" = some ⟨some "e", none, some "d"⟩ ∧
    linkedNodes.lookup "e" = some ⟨none, none, some "e"⟩ ∧
    linkedNodes.lookup "f" = some ⟨none, none, some "f"⟩ ∧
    linkedNodes.map Prod.fst = ["root", "a", "b", "c", "d", "e", "f"] ∧
    (linkedNodes.map Prod.fst).Nodup ∧
    toTree linkedNodes 8 (some "root") = some mainTree := by decide

/-- C8: the program always terminates with exit code 0: the run takes no
input, never hits the failure case, and returns 0. -/
theorem main_exit_code_zero :
    mainRun.map Prod.snd = some 0 ∧ mainRun ≠ none := by decide

/-- C9: traversal never mutates the tree: whenever `visit` or `dfs`
succeeds it hands back exactly the memory it was given, and the concrete
run on the linked memory ends in that same memory — the tree state before
traversal equals the tree state after it. -/
theorem traversal_preserves_tree :
    (∀ (st : Mem) (p : Option String) (r : Mem × String),
      visitS st p = some r → r.1 = st) ∧
    (∀ (fuel : Nat) (st : Mem) (p : Option String) (r : Mem × List String),
      dfsS fuel st p = some r → r.1 = st) ∧
    (dfsS 8 linkedNodes (some "root")).map Prod.fst = some linkedNodes :=
  ⟨visitS_frame, dfsS_frame, by decide⟩

/-- Witness for C9: the frame theorems applied at the concrete run of the
program, with the hypotheses discharged by computation. -/
theorem traversal_preserves_tree_witness :
    ((linkedNodes, visitLine "root") : Mem × String).1 = linkedNodes ∧
    ((linkedNodes, (dfs mainTree).map visitLine) : Mem × List String).1 = linkedNodes :=
  ⟨traversal_preserves_tree.1 linkedNodes (some "root")
      (linkedNodes, visitLine "root") (by decide),
   traversal_preserves_tree.2.1 8 linkedNodes (some "root")
      (linkedNodes, (dfs mainTree).map visitLine) (by decide)⟩

/-- C10: `visit` dereferences its argument with no null check, so a null
pointer makes it fail; `dfs` returns before visiting whenever its
argument is null, every node built in `main` carries a non-null name,
and the concrete run therefore never reaches the failure case. -/
theorem visit_deref_guarded_by_dfs :
    (∀ st : Mem, visitP st none = none) ∧
    (∀ (st : Mem) (fuel : Nat), dfsP st fuel none = some []) ∧
    linkedNodes.all (fun kv => kv.2.name.isSome) = true ∧
    dfsP linkedNodes 8 (some "root") = some ((dfs mainTree).map visitLine) :=
  ⟨fun _ => rfl, fun st fuel => by cases fuel <;> rfl, by decide, by decide⟩

end TreeC
